import Mathlib

/-!
Verification development for the Neural-Express deduplication, clustering and
ranking engine (`src/neural_express`).  The Python modules
`utils/schema.py`, `rank/score.py`, `rank/select.py`, `dedupe/dedupe.py` and
`dedupe/store.py` are shallowly embedded below:

* `datetime` values are modelled as Unix timestamps in whole seconds (`Int`);
  `timedelta.days` is floor division of the second difference by 86400, which
  is exactly Python's semantics.
* Python floats that only ever hold finitely representable data read from the
  items (credibility values, cosine similarities, distances) are modelled as
  `ℚ`; derived analytic scores (which involve `0.5 ** x`) are modelled as `ℝ`.
* Raising an exception is modelled by `Option`/`Except` results.
* External libraries (`sklearn.AgglomerativeClustering`, `faiss`, `hashlib`,
  `numpy`) are modelled by explicit Lean definitions that follow their
  documented behaviour as used by this repository; each such definition
  carries a comment saying what it stands for.
-/

namespace NeuralExpress

/-- `utils/schema.py::NewsItem`.  `published_at` is the Unix timestamp in
seconds.  `engagement` models the `"credibility"` entry of the `engagement`
dict (the only key the engine ever reads, via
`item.engagement.get("credibility", 0.5)`); `none` means the key is absent. -/
structure NewsItem where
  id : String
  source : String
  source_name : String
  title : String
  url : String
  published_at : Int
  author : Option String
  summary_raw : String
  content_snippet : String
  tags : List String
  engagement : Option ℚ
  duplicates : List String
  story_chain_id : Option String
deriving DecidableEq, Repr, Inhabited

/-- `utils/schema.py::RankedStory` (the `summary` field, never touched by the
ranking/selection engine, is omitted). -/
structure RankedStory where
  news_item : NewsItem
  score : ℝ
  recency_score : ℝ
  credibility_score : ℝ
  engagement_score : ℝ
  uniqueness_score : ℝ
  relevance_score : ℝ

/-- The ranking weight dict passed to `calculate_composite_score`; a field is
`none` when the corresponding key is absent from the dict, in which case
`dict.get` falls back to the hard-coded default. -/
structure Weights where
  recency : Option ℝ
  credibility : Option ℝ
  engagement : Option ℝ
  uniqueness : Option ℝ
  relevance : Option ℝ

/-! ## Vector store (`dedupe/store.py`) -/

/-- The metadata dict stored per vector (built in
`dedupe/dedupe.py::build_vector_store`: keys `id`, `title`, `url`,
`source_name`). -/
structure MetaRec where
  id : String
  title : String
  url : String
  source_name : String
deriving DecidableEq, Repr

/-- A `numpy` 2-d array of shape `[rows.length, cols]`: the embedded matrix is
rectangular by construction, `shape[1]` is `cols`. -/
structure NpMatrix where
  rows : List (List ℝ)
  cols : Nat
  rect : ∀ r ∈ rows, r.length = cols

/-- A `faiss.IndexFlatL2`: its dimension `d` and its stored row vectors
(`ntotal` is the number of rows).  Modelled from the external faiss library as
used here: `index.add` appends rows, `index.ntotal` counts them. -/
structure FaissIndex where
  d : Nat
  vecs : List (List ℝ)

/-- `dedupe/store.py::VectorStore`: the `dimension` attribute, the faiss
index and the metadata list. -/
structure VectorStore where
  dimension : Nat
  index : FaissIndex
  metadata : List MetaRec

/-- `VectorStore.__init__`. -/
def VectorStore.init (dimension : Nat) : VectorStore :=
  ⟨dimension, ⟨dimension, []⟩, []⟩

/-- `VectorStore.size`: `self.index.ntotal`. -/
def VectorStore.size (s : VectorStore) : Nat :=
  s.index.vecs.length

/-- The two `ValueError`s raised by `VectorStore.add`, named as in the spec's
error taxonomy (§7): the Python code raises `ValueError` with two distinct
messages, "Number of embeddings must match metadata length" (`lengthMismatch`)
and "Embedding dimension ... doesn't match index dimension ..."
(`dimensionMismatch`). -/
inductive StoreErr where
  | lengthMismatch
  | dimensionMismatch
deriving DecidableEq, Repr

/-- `faiss.normalize_L2` applied to one row: divide by the L2 norm (modelled
from the external faiss library; division by a zero norm is the junk value 0
here, a case no claim depends on). -/
noncomputable def l2normalize (v : List ℝ) : List ℝ :=
  v.map (fun x => x / Real.sqrt (v.foldl (fun a y => a + y ^ 2) 0))

/-- `VectorStore.add`.  A raised `ValueError` is the `.error` case; on the
error paths the method raises before any mutation, so the caller's store is
unchanged (the `.ok` case is the only one producing a new store). -/
noncomputable def VectorStore.add (s : VectorStore) (embeddings : NpMatrix)
    (metadata : List MetaRec) : Except StoreErr VectorStore :=
  if embeddings.rows.length ≠ metadata.length then
    .error .lengthMismatch
  else if embeddings.cols ≠ s.dimension then
    .error .dimensionMismatch
  else
    .ok { s with
          index := ⟨s.index.d, s.index.vecs ++ embeddings.rows.map l2normalize⟩,
          metadata := s.metadata ++ metadata }

/-- `VectorStore.load`.  The filesystem is modelled by the two optional
persisted artifacts: `diskIndex` is the `.index` file (`none` when
`index_path.exists()` is false), `diskMeta` the `.metadata` pickle (`none`
when missing; `some none` models a pickle holding `None`, which
`load_pickle(...) or []` turns into `[]`).  When either file is missing the
method logs a warning and returns, leaving `self` untouched.  Note that the
`dimension` attribute is never updated by `load`. -/
def VectorStore.load (s : VectorStore) (diskIndex : Option FaissIndex)
    (diskMeta : Option (Option (List MetaRec))) : VectorStore :=
  match diskIndex, diskMeta with
  | some idx, some m => { s with index := idx, metadata := m.getD [] }
  | _, _ => s

/-! ## Scoring (`rank/score.py`) -/

/-- `(now - item.published_at).total_seconds() / 3600` for timestamps in
seconds.  `now` is `datetime.now()` at call time, passed explicitly. -/
noncomputable def ageHours (now pub : Int) : ℝ :=
  ((now - pub : Int) : ℝ) / 3600

/-- The `if age_hours < 0: age_hours = 0` clamp of
`calculate_recency_score`. -/
noncomputable def flooredAgeHours (now pub : Int) : ℝ :=
  if ageHours now pub < 0 then 0 else ageHours now pub

/-- `calculate_recency_score`.  The two `if`s of the source (clamp negative
ages to 0, return 1.0 inside the window) followed by the half-life decay
`1.0 * 0.5 ** (excess_hours / (time_window_hours * 0.1))` clamped by
`max(0.0, min(1.0, score))`. -/
noncomputable def calculate_recency_score (now : Int) (item : NewsItem)
    (time_window_hours : Nat) : ℝ :=
  let age_hours := flooredAgeHours now item.published_at
  if age_hours ≤ (time_window_hours : ℝ) then 1
  else
    let excess_hours := age_hours - (time_window_hours : ℝ)
    max 0 (min 1 ((1 / 2 : ℝ) ^ (excess_hours / ((time_window_hours : ℝ) * (1 / 10)))))

/-- `calculate_credibility_score`: `item.engagement.get("credibility", 0.5)`,
kept at its exact rational value. -/
def credibilityValue (item : NewsItem) : ℚ :=
  item.engagement.getD (1 / 2)

/-- `calculate_credibility_score` as the float the scorer works with. -/
noncomputable def calculate_credibility_score (item : NewsItem) : ℝ :=
  (credibilityValue item : ℝ)

/-- `calculate_engagement_score`: the neutral constant 0.5. -/
noncomputable def calculate_engagement_score (_item : NewsItem) : ℝ :=
  1 / 2

/-- `calculate_uniqueness_score`: `1.0 / (len(item.duplicates) + 1)`. -/
noncomputable def calculate_uniqueness_score (item : NewsItem) : ℝ :=
  1 / ((item.duplicates.length : ℝ) + 1)

/-- Python's `needle in hay` substring test on strings. -/
def pySubstr (needle hay : String) : Bool :=
  (List.range (hay.length + 1)).any fun i => needle.isPrefixOf (hay.drop i)

/-- `calculate_relevance_score`: count the keywords whose lowercase form
occurs in `f"{item.title} {item.content_snippet}".lower()`; with no keywords
return 0.5, else `min(1.0, matches / len(keywords) * 2)`. -/
noncomputable def calculate_relevance_score (item : NewsItem) (keywords : List String) : ℝ :=
  let text := (item.title ++ " " ++ item.content_snippet).toLower
  let nMatches := keywords.countP fun kw => pySubstr kw.toLower text
  if keywords = [] then 1 / 2
  else min 1 ((nMatches : ℝ) / (keywords.length : ℝ) * 2)

/-- The dict returned by `calculate_composite_score`. -/
structure ScoreDict where
  score : ℝ
  recency_score : ℝ
  credibility_score : ℝ
  engagement_score : ℝ
  uniqueness_score : ℝ
  relevance_score : ℝ

/-- `calculate_composite_score`: the five components and their weighted sum,
with `weights.get(key, default)` defaults 0.3 / 0.25 / 0.15 / 0.15 / 0.15. -/
noncomputable def calculate_composite_score (now : Int) (item : NewsItem)
    (weights : Weights) (time_window_hours : Nat)
    (relevance_keywords : List String) : ScoreDict :=
  let recency := calculate_recency_score now item time_window_hours
  let credibility := calculate_credibility_score item
  let engagement := calculate_engagement_score item
  let uniqueness := calculate_uniqueness_score item
  let relevance := calculate_relevance_score item relevance_keywords
  { score :=
      weights.recency.getD (3 / 10) * recency +
      weights.credibility.getD (1 / 4) * credibility +
      weights.engagement.getD (3 / 20) * engagement +
      weights.uniqueness.getD (3 / 20) * uniqueness +
      weights.relevance.getD (3 / 20) * relevance,
    recency_score := recency,
    credibility_score := credibility,
    engagement_score := engagement,
    uniqueness_score := uniqueness,
    relevance_score := relevance }

/-! ## Selection (`rank/select.py`) -/

/-- The descending-score comparison used by
`ranked.sort(key=lambda x: x.score, reverse=True)`.  Python's sort is stable;
`List.insertionSort` with this relation is stable for the same total
preorder, so the two sorts agree element for element. -/
def byScoreDesc (a b : RankedStory) : Prop :=
  b.score ≤ a.score

noncomputable instance : DecidableRel byScoreDesc :=
  fun a b => inferInstanceAs (Decidable (b.score ≤ a.score))

/-- `rank_stories`.  After sorting, the summary log line evaluates the
f-string `f"... {ranked[0].score:.3f} ... {ranked[-1].score:.3f}"`, which
indexes into `ranked`; on an empty input this raises `IndexError`, modelled
by `none`. -/
noncomputable def rank_stories (now : Int) (items : List NewsItem)
    (weights : Weights) (time_window_hours : Nat)
    (relevance_keywords : List String) : Option (List RankedStory) :=
  let ranked := items.map fun item =>
    let scores := calculate_composite_score now item weights time_window_hours
      relevance_keywords
    { news_item := item,
      score := scores.score,
      recency_score := scores.recency_score,
      credibility_score := scores.credibility_score,
      engagement_score := scores.engagement_score,
      uniqueness_score := scores.uniqueness_score,
      relevance_score := scores.relevance_score : RankedStory }
  let sorted := ranked.insertionSort byScoreDesc
  match sorted with
  | [] => none
  | _ :: _ => some sorted

/-- `select_top_stories`: filter to `score >= min_score`, take the first
`top_count`. -/
noncomputable def select_top_stories (ranked_stories : List RankedStory)
    (top_count : Nat) (min_score : ℝ) : List RankedStory :=
  (ranked_stories.filter fun story => decide (min_score ≤ story.score)).take top_count

/-- `select_secondary_stories`: drop stories whose `news_item.id` was already
selected as top, filter to `score >= min_score`, take the first
`secondary_count`. -/
noncomputable def select_secondary_stories (ranked_stories : List RankedStory)
    (top_stories : List RankedStory) (secondary_count : Nat)
    (min_score : ℝ) : List RankedStory :=
  let top_ids := top_stories.map fun story => story.news_item.id
  let candidates := ranked_stories.filter fun story =>
    decide (story.news_item.id ∉ top_ids) && decide (min_score ≤ story.score)
  candidates.take secondary_count

/-! ## Deduplication (`dedupe/dedupe.py`)

The embedding provider is external (spec §6), so the deduplicator is
parametrised by the numeric data derived from its output: `sim i j` is the
cosine-similarity matrix entry for items `i, j` (chain mode), `d i j` the
pairwise Euclidean distance between the L2-normalized embeddings (standard
mode).  Python mutates `NewsItem` objects in place and keeps aliased
references in several lists; this is modelled by working with item *indices*
plus an explicit state function `st : Nat → NewsItem` holding each object's
current value. -/

/-- `abs((item_i.published_at - item_j.published_at).days)`:
`timedelta.days` is floor division of the signed second difference by
86400. -/
def timeDiffDays (x y : NewsItem) : Nat :=
  (Int.fdiv (x.published_at - y.published_at) 86400).natAbs

/-- The ascending order on the sort key
`(-credibility, -published_at.timestamp())` used by `_select_best_item`. -/
def bestLe (x y : NewsItem) : Prop :=
  credibilityValue y < credibilityValue x ∨
    (credibilityValue x = credibilityValue y ∧ y.published_at ≤ x.published_at)

instance bestLe.decRel : DecidableRel bestLe := fun _ _ =>
  inferInstanceAs (Decidable (_ ∨ _))

instance : IsTotal NewsItem bestLe where
  total x y := by
    rcases lt_trichotomy (credibilityValue x) (credibilityValue y) with h | h | h
    · exact Or.inr (Or.inl h)
    · rcases le_total y.published_at x.published_at with h' | h'
      · exact Or.inl (Or.inr ⟨h, h'⟩)
      · exact Or.inr (Or.inr ⟨h.symm, h'⟩)
    · exact Or.inl (Or.inl h)

instance : IsTrans NewsItem bestLe where
  trans x y z hxy hyz := by
    rcases hxy with h1 | ⟨h1, h1'⟩
    · rcases hyz with h2 | ⟨h2, h2'⟩
      · exact Or.inl (h2.trans h1)
      · exact Or.inl (h2 ▸ h1)
    · rcases hyz with h2 | ⟨h2, h2'⟩
      · exact Or.inl (h1 ▸ h2)
      · exact Or.inr ⟨h1.trans h2, h2'.trans h1'⟩

/-- `_select_best_item`: `items[0]` for a singleton, else the head of the
stable sort by `(-credibility, -published_at)`.  Python's `sorted` is stable
and `List.insertionSort` is stable, so for this total preorder they agree
element for element; the `.headD default` covers the empty list, on which the
Python code would raise `IndexError` (no caller passes it). -/
def _select_best_item (items : List NewsItem) : NewsItem :=
  match items with
  | [x] => x
  | l => (l.insertionSort bestLe).headD default

/-- The tie-break order lifted to indices through the current item state. -/
def idxLe (st : Nat → NewsItem) (a b : Nat) : Prop :=
  bestLe (st a) (st b)

instance idxLe.decRel (st : Nat → NewsItem) : DecidableRel (idxLe st) :=
  fun a b => bestLe.decRel (st a) (st b)

instance (st : Nat → NewsItem) : IsTotal Nat (idxLe st) :=
  ⟨fun a b => total_of bestLe (st a) (st b)⟩

instance (st : Nat → NewsItem) : IsTrans Nat (idxLe st) :=
  ⟨fun a _ c hab hbc =>
    show bestLe (st a) (st c) from IsTrans.trans _ _ _ hab hbc⟩

/-- `_select_best_item` at the level of indices into the aliased item array:
returns the index whose object Python's `sorted(...)[0]` denotes. -/
def selectBestIdx (st : Nat → NewsItem) (group : List Nat) : Nat :=
  match group with
  | [j] => j
  | g => (g.insertionSort (idxLe st)).headD 0

/-- `hashlib.md5(text.encode()).hexdigest()[:8]`: an external deterministic
hash used only as an opaque story-chain identifier; modelled as the hashed
text itself (every property claimed of chain ids depends only on the hash
being a deterministic function of its input). -/
def md5_8 (s : String) : String := s

/-- Mutable state of `_smart_deduplicate`: current item values (`st`), the
`processed` index set, the `keep_items` list (as indices, since Python keeps
object references), and the `story_chains` dict in insertion order. -/
structure SState where
  st : Nat → NewsItem
  processed : List Nat
  keep : List Nat
  chains : List (String × List Nat)

/-- `story_chains.setdefault(chain_id, []).extend(chain_members)` semantics on
the insertion-ordered dict. -/
def upsertChain (cs : List (String × List Nat)) (cid : String)
    (ms : List Nat) : List (String × List Nat) :=
  if cs.any fun c => c.1 == cid then
    cs.map fun c => if c.1 == cid then (c.1, c.2 ++ ms) else c
  else cs ++ [(cid, ms)]

/-- The inner-loop candidates for item `i`: later, still-unprocessed
indices.  Within the inner `j` loop of the source, `processed` only ever
grows with the same-day duplicates collected for this `i`, which are
distinct from every later `j`; hence both inner filters test membership
against the `processed` set as it stood when the iteration began. -/
def candsOf (n : Nat) (s : SState) (i : Nat) : List Nat :=
  (List.range n).filter fun j => decide (i < j) && decide (j ∉ s.processed)

/-- The same-day high-similarity duplicates absorbed by item `i`. -/
def dupsOf (n : Nat) (sim : Nat → Nat → ℚ) (threshold : ℚ) (s : SState)
    (i : Nat) : List Nat :=
  (candsOf n s i).filter fun j =>
    decide (threshold ≤ sim i j) &&
      decide (timeDiffDays (s.st i) (s.st j) = 0)

/-- `chain_members`: `i` plus the cross-day medium-similarity candidates. -/
def chainMembersOf (n : Nat) (sim : Nat → Nat → ℚ)
    (threshold story_chain_threshold : ℚ) (s : SState) (i : Nat) : List Nat :=
  i :: ((candsOf n s i).filter fun j =>
    decide (story_chain_threshold ≤ sim i j) && decide (sim i j < threshold)
      && decide (0 < timeDiffDays (s.st i) (s.st j)))

/-- `duplicate_items` as indices: `[i] + duplicates`. -/
def groupOf (n : Nat) (sim : Nat → Nat → ℚ) (threshold : ℚ) (s : SState)
    (i : Nat) : List Nat :=
  i :: dupsOf n sim threshold s i

/-- The index of the object `self._select_best_item(duplicate_items)`
returns. -/
def bestIdxOf (n : Nat) (sim : Nat → Nat → ℚ) (threshold : ℚ) (s : SState)
    (i : Nat) : Nat :=
  selectBestIdx s.st (groupOf n sim threshold s i)

/-- The URLs recorded into the best item's `duplicates`. -/
def dupUrlsOf (n : Nat) (sim : Nat → Nat → ℚ) (threshold : ℚ) (s : SState)
    (i : Nat) : List String :=
  (((groupOf n sim threshold s i).map s.st).filter fun x =>
    decide (x.id ≠ (s.st (bestIdxOf n sim threshold s i)).id)).map
    fun x => x.url

/-- One iteration of the outer `for i in range(len(items))` loop of
`_smart_deduplicate`. -/
def smartStep (n : Nat) (sim : Nat → Nat → ℚ)
    (threshold story_chain_threshold : ℚ) (s : SState) (i : Nat) : SState :=
  if i ∈ s.processed then s
  else
    let bestIdx := bestIdxOf n sim threshold s i
    let st1 := Function.update s.st bestIdx
      { s.st bestIdx with duplicates := dupUrlsOf n sim threshold s i }
    if 1 < (chainMembersOf n sim threshold story_chain_threshold s i).length then
      let b := st1 bestIdx
      let cid := md5_8 (b.title.take 50 ++ toString b.published_at)
      { st := Function.update st1 bestIdx { b with story_chain_id := some cid },
        processed := s.processed ++ i :: dupsOf n sim threshold s i,
        keep := s.keep ++ [bestIdx],
        chains := upsertChain s.chains cid
          (chainMembersOf n sim threshold story_chain_threshold s i) }
    else
      { st := st1, processed := s.processed ++ i :: dupsOf n sim threshold s i,
        keep := s.keep ++ [bestIdx], chains := s.chains }

/-- One iteration of the trailing
`if idx < len(items) and items[idx] in keep_items:
items[idx].story_chain_id = chain_id` loop; `keep_items` holds references to
the (mutated) item objects, hence it is re-read through the current state. -/
def assignChain (n : Nat) (keep : List Nat) (cid : String)
    (st : Nat → NewsItem) (idx : Nat) : Nat → NewsItem :=
  if idx < n ∧ st idx ∈ keep.map st then
    Function.update st idx { st idx with story_chain_id := some cid }
  else st

/-- `_smart_deduplicate`. -/
def _smart_deduplicate (items : List NewsItem) (sim : Nat → Nat → ℚ)
    (threshold story_chain_threshold : ℚ) : List NewsItem :=
  let n := items.length
  let init : SState := ⟨fun k => items.getD k default, [], [], []⟩
  let s1 := (List.range n).foldl
    (smartStep n sim threshold story_chain_threshold) init
  let stFinal := s1.chains.foldl
    (fun st c => c.2.foldl (assignChain n s1.keep c.1) st) s1.st
  s1.keep.map stFinal

/-! ### Standard-mode clustering

`_cluster_embeddings` delegates to the external
`sklearn.cluster.AgglomerativeClustering(n_clusters=None,
distance_threshold=√(2(1-threshold)), linkage="average",
metric="euclidean")`.  That algorithm is modelled from its documented
behaviour: start from singleton clusters and repeatedly merge the pair of
clusters with minimal average pairwise distance while that minimum is below
the distance threshold (average linkage is reducible, so cutting the
dendrogram at the threshold equals stopping the merge loop there).  Distances
are nonnegative, so `avg < √(2(1-τ))` is expressed as the rational test
`avg < 0 ∨ (0 ≤ avg ∧ avg² < 2(1-τ))`, keeping the model decidable. -/

/-- Sum of `d a b` over `a ∈ A`, `b ∈ B`. -/
def pairSum (d : Nat → Nat → ℚ) (A B : List Nat) : ℚ :=
  (A.map fun a => (B.map fun b => d a b).sum).sum

/-- Average-linkage distance between clusters `A` and `B`. -/
def avgDist (d : Nat → Nat → ℚ) (A B : List Nat) : ℚ :=
  pairSum d A B / ((A.length : ℚ) * (B.length : ℚ))

/-- The merge test `avg < √(thrSq)` for a nonnegative threshold square,
phrased inside `ℚ`. -/
def mergeCond (avg thrSq : ℚ) : Prop :=
  avg < 0 ∨ (0 ≤ avg ∧ avg ^ 2 < thrSq)

instance : ∀ a t, Decidable (mergeCond a t) := fun _ _ =>
  inferInstanceAs (Decidable (_ ∨ _))

/-- All index pairs `(i, j)` with `i < j < k`. -/
def allPairs (k : Nat) : List (Nat × Nat) :=
  ((List.range k).map fun i =>
    ((List.range k).filter fun j => decide (i < j)).map fun j => (i, j)).flatten

/-- First element minimising `f`. -/
def minBy (f : α → ℚ) : List α → Option α
  | [] => none
  | x :: xs =>
    (minBy f xs).elim (some x) fun y => if f x ≤ f y then some x else some y

/-- Merge clusters at positions `i < j`. -/
def mergeAt (cs : List (List Nat)) (i j : Nat) : List (List Nat) :=
  (cs.getD i [] ++ cs.getD j []) :: ((cs.eraseIdx j).eraseIdx i)

/-- The merge loop; `fuel` only bounds the recursion (each merge strictly
decreases the number of clusters, so `fuel = n` never runs out). -/
def agglomerate (d : Nat → Nat → ℚ) (thrSq : ℚ) :
    Nat → List (List Nat) → List (List Nat)
  | 0, cs => cs
  | fuel + 1, cs =>
    (minBy (fun p => avgDist d (cs.getD p.1 []) (cs.getD p.2 []))
        (allPairs cs.length)).elim cs fun p =>
      if mergeCond (avgDist d (cs.getD p.1 []) (cs.getD p.2 [])) thrSq then
        agglomerate d thrSq fuel (mergeAt cs p.1 p.2)
      else cs

/-- `_cluster_embeddings` as the resulting partition of `{0, …, n-1}` (the
`np.unique`-sorted label array carries the same information; no claim depends
on the order in which clusters are listed). -/
def _cluster_embeddings (d : Nat → Nat → ℚ) (threshold : ℚ)
    (n : Nat) : List (List Nat) :=
  if n = 1 then [[0]]
  else agglomerate d (2 * (1 - threshold)) n ((List.range n).map fun i => [i])

/-- `_select_representatives`: one representative per cluster, its
`duplicates` overwritten with the other members' URLs. -/
def _select_representatives (items : List NewsItem)
    (clusters : List (List Nat)) : List NewsItem :=
  clusters.map fun c =>
    let citems := c.map fun i => items.getD i default
    let rep := _select_best_item citems
    { rep with duplicates :=
        (citems.filter fun x => decide (x.id ≠ rep.id)).map fun x => x.url }

/-- `Deduplicator.deduplicate`.  `sim` and `d` are the similarity and
distance matrices derived from the external embedding provider's vectors for
these items. -/
def deduplicate (items : List NewsItem) (sim d : Nat → Nat → ℚ)
    (threshold story_chain_threshold : ℚ)
    (detect_story_chains : Bool) : List NewsItem :=
  if items.length = 0 then []
  else if detect_story_chains then
    _smart_deduplicate items sim threshold story_chain_threshold
  else
    _select_representatives items (_cluster_embeddings d threshold items.length)

/-- Spec-side definition of secondary selection (§4.4): from the full ranked
list, exclude ids already selected as top, filter to
`score ≥ min_score_secondary`, take the first `secondary_count` — stated
independently of the code's set-based formulation, for the refinement claim
C6. -/
noncomputable def secondarySpecSelection (ranked_stories top_stories :
    List RankedStory) (secondary_count : Nat) (min_score : ℝ) :
    List RankedStory :=
  (ranked_stories.filter fun story =>
    decide ((top_stories.map fun t => t.news_item.id).all
      fun tid => tid ≠ story.news_item.id) && decide (min_score ≤ story.score)
    ).take secondary_count

/-- A store holding one vector and one metadata record; prior state used to
refute claim C8 as stated. -/
noncomputable def storeWithOneVector : VectorStore :=
  ⟨2, ⟨2, [[1, 0]]⟩, [⟨"id0", "t0", "u0", "s0"⟩]⟩

/-- The weight dict with every key absent, so that every component falls back
to its hard-coded default (recency 0.30, credibility 0.25, engagement 0.15,
uniqueness 0.15, relevance 0.15). -/
def defaultWeights : Weights := ⟨none, none, none, none, none⟩

/-- A concrete `NewsItem` builder used by witness and counterexample
theorems. -/
def mkSampleItem (id url : String) (pub : Int) (cred : Option ℚ)
    (dups : List String) : NewsItem :=
  { id := id, source := "rss", source_name := "src", title := id, url := url,
    published_at := pub, author := none, summary_raw := "",
    content_snippet := "", tags := [], engagement := cred,
    duplicates := dups, story_chain_id := none }

/-- A rational literal given in lowest terms through the raw constructor:
the kernel can evaluate comparisons on such literals, whereas the normalising
`/` on `ℚ` does not reduce inside the kernel. -/
def mkQ (n : Int) (d : Nat) (h1 : d ≠ 0) (h2 : n.natAbs.Coprime d) : ℚ :=
  ⟨n, d, h1, h2⟩

/-- 0.85, the default duplicate threshold. -/
def q085 : ℚ := mkQ 17 20 (by norm_num) (by norm_num)

/-- 0.90, a raised duplicate threshold. -/
def q090 : ℚ := mkQ 9 10 (by norm_num) (by norm_num)

/-- 0.75, the default story-chain threshold. -/
def q075 : ℚ := mkQ 3 4 (by norm_num) (by norm_num)

/-- 0.80, a similarity value. -/
def q080 : ℚ := mkQ 4 5 (by norm_num) (by norm_num)

/-- 0.86, a similarity value. -/
def q086 : ℚ := mkQ 43 50 (by norm_num) (by norm_num)

/-- 0.95, a similarity value. -/
def q095 : ℚ := mkQ 19 20 (by norm_num) (by norm_num)

/-- 0.10, a similarity value. -/
def q010 : ℚ := mkQ 1 10 (by norm_num) (by norm_num)

/-- Four same-day items used by the C9 chain-mode counterexample. -/
def chainItems : List NewsItem :=
  [mkSampleItem "a" "ua" 0 (some 1) [], mkSampleItem "b" "ub" 0 (some 1) [],
   mkSampleItem "c" "uc" 0 (some 1) [], mkSampleItem "d" "ud" 0 (some 1) []]

/-- Similarity matrix for `chainItems`: sim(a,b) = 0.86,
sim(b,c) = sim(b,d) = 0.95, everything else 0.10. -/
def chainSim : Nat → Nat → ℚ := fun i j =>
  match i, j with
  | 0, 1 => q086
  | 1, 0 => q086
  | 1, 2 => q095
  | 2, 1 => q095
  | 1, 3 => q095
  | 3, 1 => q095
  | _, _ => q010

/-- The invariant maintained through the `_smart_deduplicate` pass: item ids
and URLs are never mutated, kept indices are processed, and every kept
item's `duplicates` list is free of its own URL. -/
def KeepInv (items : List NewsItem) (s : SState) : Prop :=
  (∀ k, (s.st k).id = (items.getD k default).id ∧
    (s.st k).url = (items.getD k default).url) ∧
  (∀ k ∈ s.keep, k ∈ s.processed) ∧
  (∀ k ∈ s.keep, (s.st k).url ∉ (s.st k).duplicates)

/-- The chain identifier `_smart_deduplicate` derives from a chain founder:
`md5` of the title prefix and the publish timestamp. -/
def chainIdOf (x : NewsItem) : String :=
  md5_8 (x.title.take 50 ++ toString x.published_at)

/-! # Theorems -/

/-- C1 (code_bug evidence): `rank_stories` applied to the empty item list
raises (`none`): after the sort, the summary logging line evaluates
`ranked[0].score` inside an f-string, and `ranked` is empty.  This holds for
every choice of weights, time window and keywords. -/
theorem rank_stories_empty_raises (now : Int) (w : Weights) (tw : Nat)
    (kw : List String) : rank_stories now [] w tw kw = none := rfl

/-- C6: selection disjointness and the secondary rule.  For every ranked
list, counts and thresholds, with `top` the selected top stories: the id
lists of the secondary and top selections share no `news_item.id`; the
secondary selection equals the spec-side description (first
`secondary_count` of the ranked list after excluding top ids and filtering to
`score ≥ min_score_secondary`); and it is a sublist of the ranked list (no
re-sorting). -/
theorem selection_disjoint_and_secondary_rule (ranked : List RankedStory)
    (top_count : Nat) (min_score_top : ℝ) (secondary_count : Nat)
    (min_score_secondary : ℝ) :
    (((select_secondary_stories ranked
        (select_top_stories ranked top_count min_score_top)
        secondary_count min_score_secondary).map fun s => s.news_item.id).filter
      fun a => decide (a ∈ (select_top_stories ranked top_count
        min_score_top).map fun s => s.news_item.id)) = [] ∧
    select_secondary_stories ranked
        (select_top_stories ranked top_count min_score_top)
        secondary_count min_score_secondary =
      secondarySpecSelection ranked
        (select_top_stories ranked top_count min_score_top)
        secondary_count min_score_secondary ∧
    (select_secondary_stories ranked
        (select_top_stories ranked top_count min_score_top)
        secondary_count min_score_secondary).Sublist ranked := by
  set top := select_top_stories ranked top_count min_score_top with htop
  refine ⟨?_, ?_, ?_⟩
  · rw [List.filter_eq_nil_iff]
    intro a ha hb
    simp only [decide_eq_true_eq] at hb
    simp only [select_secondary_stories, List.mem_map] at ha
    obtain ⟨s, hs, rfl⟩ := ha
    have := List.mem_of_mem_take hs
    have hmem := List.of_mem_filter this
    simp only [Bool.and_eq_true, decide_eq_true_eq] at hmem
    exact hmem.1 (by simpa using hb)
  · simp only [select_secondary_stories, secondarySpecSelection]
    congr 1
    apply List.filter_congr
    intro s _
    have hiff : (s.news_item.id ∉ top.map fun story => story.news_item.id) ↔
        (∀ x ∈ top.map fun t => t.news_item.id, x ≠ s.news_item.id) := by
      constructor
      · intro h x hx he
        exact h (he ▸ hx)
      · intro h hmem
        exact h _ hmem rfl
    simp only [List.all_eq_true, decide_eq_true_eq]
    rw [decide_eq_decide.mpr hiff]
  · exact ((List.take_prefix _ _).sublist.trans (List.filter_sublist _))

/-- C7: `VectorStore.add` errors exactly when the vector count differs from
the metadata count (`LengthMismatch`, checked first) or the matrix width
differs from the index dimension (`DimensionMismatch`); the checks precede
every mutation, so an error leaves the caller's store untouched, and on
success the size grows by exactly the number of vectors and the metadata
records are appended in order. -/
theorem VectorStore.add_spec (s : VectorStore) (m : NpMatrix)
    (meta : List MetaRec) :
    ((∃ e, s.add m meta = .error e) ↔
      m.rows.length ≠ meta.length ∨ m.cols ≠ s.dimension) ∧
    (∀ s', s.add m meta = .ok s' →
      s'.size = s.size + m.rows.length ∧
      s'.metadata = s.metadata ++ meta ∧
      s'.dimension = s.dimension) := by
  by_cases h1 : m.rows.length = meta.length
  · by_cases h2 : m.cols = s.dimension
    · constructor
      · constructor
        · rintro ⟨e, he⟩
          rw [VectorStore.add, if_neg (by simpa using h1),
            if_neg (by simpa using h2)] at he
          cases he
        · rintro (h | h)
          · exact absurd h1 h
          · exact absurd h2 h
      · intro s' hs'
        rw [VectorStore.add, if_neg (by simpa using h1),
          if_neg (by simpa using h2)] at hs'
        cases hs'
        refine ⟨?_, rfl, rfl⟩
        simp [VectorStore.size]
    · constructor
      · exact ⟨fun _ => Or.inr h2, fun _ => ⟨.dimensionMismatch, by
          rw [VectorStore.add, if_neg (by simpa using h1),
            if_pos (by simpa using h2)]⟩⟩
      · intro s' hs'
        rw [VectorStore.add, if_neg (by simpa using h1),
          if_pos (by simpa using h2)] at hs'
        cases hs'
  · constructor
    · exact ⟨fun _ => Or.inl h1, fun _ => ⟨.lengthMismatch, by
        rw [VectorStore.add, if_pos (by simpa using h1)]⟩⟩
    · intro s' hs'
      rw [VectorStore.add, if_pos (by simpa using h1)] at hs'
      cases hs'

/-- Witness for C7: adding a 1-wide vector to a dimension-2 store errors. -/
theorem VectorStore.add_spec_witness :
    ∃ e, (VectorStore.init 2).add ⟨[[1]], 1, by simp⟩
      [⟨"i0", "t0", "u0", "s0"⟩] = .error e :=
  (VectorStore.add_spec (VectorStore.init 2) ⟨[[1]], 1, by simp⟩
    [⟨"i0", "t0", "u0", "s0"⟩]).1.mpr (Or.inr (by decide))

/-- C8 counterexample: the claim "`load` on a missing path leaves the store
as an *empty* index for every prior state" is false — a store already
holding one vector keeps it (the method returns before touching any state
when an artifact is missing). -/
theorem load_missing_does_not_empty :
    (storeWithOneVector.load none none).size ≠ 0 := by
  simp [VectorStore.load, storeWithOneVector, VectorStore.size]

/-- C8 amended: `load` on a missing artifact (either companion file absent)
returns without raising and leaves the store *unchanged*; in particular a
fresh store stays empty. -/
theorem VectorStore.load_missing_noop (s : VectorStore)
    (di : Option FaissIndex) (dm : Option (Option (List MetaRec)))
    (h : di = none ∨ dm = none) : s.load di dm = s := by
  rcases h with h | h
  · subst h; cases dm <;> rfl
  · subst h; cases di <;> rfl

/-- Witness for the amended C8: the one-vector store is returned unchanged
when both artifacts are missing. -/
theorem VectorStore.load_missing_noop_witness :
    storeWithOneVector.load none none = storeWithOneVector :=
  VectorStore.load_missing_noop storeWithOneVector none none (Or.inl rfl)

/-- C4: recency semantics for a positive time window.  With the item's age
(in hours, negative ages floored to 0): inside the window, including exactly
at its edge, the score is exactly 1; past the window by any excess `e > 0`,
the score equals the half-life decay `0.5 ^ (e / (window × 0.1))` (the
`[0,1]` clamp of the source is the identity there) and is strictly below
1. -/
theorem recency_score_spec (now : Int) (item : NewsItem)
    (time_window_hours : Nat) (hw : 0 < time_window_hours) :
    (flooredAgeHours now item.published_at ≤ (time_window_hours : ℝ) →
      calculate_recency_score now item time_window_hours = 1) ∧
    (∀ e : ℝ, 0 < e →
      flooredAgeHours now item.published_at = (time_window_hours : ℝ) + e →
      calculate_recency_score now item time_window_hours =
        (1 / 2 : ℝ) ^ (e / ((time_window_hours : ℝ) * (1 / 10))) ∧
      calculate_recency_score now item time_window_hours < 1) := by
  constructor
  · intro h
    rw [calculate_recency_score]
    exact if_pos h
  · intro e he hage
    have hwR : (0 : ℝ) < (time_window_hours : ℝ) := by
      exact_mod_cast hw
    have hnotle : ¬ flooredAgeHours now item.published_at ≤
        (time_window_hours : ℝ) := by
      rw [hage]
      push_neg
      linarith
    have hxpos : 0 < e / ((time_window_hours : ℝ) * (1 / 10)) := by
      apply div_pos he
      positivity
    have hplt : (1 / 2 : ℝ) ^ (e / ((time_window_hours : ℝ) * (1 / 10))) < 1 :=
      Real.rpow_lt_one (by norm_num) (by norm_num) hxpos
    have hppos : 0 < (1 / 2 : ℝ) ^ (e / ((time_window_hours : ℝ) * (1 / 10))) :=
      Real.rpow_pos_of_pos (by norm_num) _
    have hscore : calculate_recency_score now item time_window_hours =
        (1 / 2 : ℝ) ^ (e / ((time_window_hours : ℝ) * (1 / 10))) := by
      rw [calculate_recency_score]
      simp only [hnotle, if_false]
      rw [hage]
      have hsub : ((time_window_hours : ℝ) + e - (time_window_hours : ℝ)) = e := by
        ring
      rw [hsub, min_eq_right hplt.le, max_eq_right hppos.le]
    exact ⟨hscore, hscore ▸ hplt⟩

/-- Witness for C4: an item 30 hours old with a 24-hour window decays to
`0.5 ^ (6 / 2.4)` and scores strictly below 1; an item 24 hours old scores
exactly 1. -/
theorem recency_score_spec_witness :
    calculate_recency_score 108000 (mkSampleItem "a" "ua" 0 none []) 24 =
      (1 / 2 : ℝ) ^ ((6 : ℝ) / ((24 : ℝ) * (1 / 10))) ∧
    calculate_recency_score 108000 (mkSampleItem "a" "ua" 0 none []) 24 < 1 ∧
    calculate_recency_score 86400 (mkSampleItem "a" "ua" 0 none []) 24 = 1 := by
  have hage : flooredAgeHours 108000 (mkSampleItem "a" "ua" 0 none
      []).published_at = (24 : ℝ) + 6 := by
    rw [mkSampleItem, flooredAgeHours, ageHours]
    norm_num
  have h1 := (recency_score_spec 108000 (mkSampleItem "a" "ua" 0 none [])
    24 (by decide)).2 6 (by norm_num) (by exact_mod_cast hage)
  have hage2 : flooredAgeHours 86400 (mkSampleItem "a" "ua" 0 none
      []).published_at ≤ ((24 : Nat) : ℝ) := by
    rw [mkSampleItem, flooredAgeHours, ageHours]
    norm_num
  have h2 := (recency_score_spec 86400 (mkSampleItem "a" "ua" 0 none [])
    24 (by decide)).1 hage2
  exact ⟨by exact_mod_cast h1.1, h1.2, h2⟩

/-- The recency score is clamped into `[0,1]` on the decay branch and is the
constant 1 inside the window. -/
theorem recency_score_mem (now : Int) (item : NewsItem) (tw : Nat) :
    0 ≤ calculate_recency_score now item tw ∧
    calculate_recency_score now item tw ≤ 1 := by
  rw [calculate_recency_score]
  split
  · norm_num
  · exact ⟨le_max_left 0 _, max_le zero_le_one (min_le_left _ _)⟩

/-- The credibility score is the stored value (default 0.5), hence in `[0,1]`
whenever the stored value is. -/
theorem credibility_score_mem (item : NewsItem)
    (hcred : ∀ c, item.engagement = some c → 0 ≤ c ∧ c ≤ 1) :
    0 ≤ calculate_credibility_score item ∧
    calculate_credibility_score item ≤ 1 := by
  rw [calculate_credibility_score, credibilityValue]
  cases h : item.engagement with
  | none => norm_num
  | some c =>
    obtain ⟨h0, h1⟩ := hcred c h
    simp only [Option.getD_some]
    exact ⟨by exact_mod_cast h0, by exact_mod_cast h1⟩

/-- The uniqueness score `1 / (duplicate_count + 1)` is in `[0,1]`. -/
theorem uniqueness_score_mem (item : NewsItem) :
    0 ≤ calculate_uniqueness_score item ∧
    calculate_uniqueness_score item ≤ 1 := by
  rw [calculate_uniqueness_score]
  constructor
  · positivity
  · rw [div_le_one (by positivity)]
    exact le_add_of_nonneg_left (by positivity)

/-- The relevance score is in `[0,1]`: 0.5 with no keywords, otherwise the
doubled match density capped at 1. -/
theorem relevance_score_mem (item : NewsItem) (kws : List String) :
    0 ≤ calculate_relevance_score item kws ∧
    calculate_relevance_score item kws ≤ 1 := by
  rw [calculate_relevance_score]
  split
  · norm_num
  · exact ⟨le_min zero_le_one (by positivity), min_le_left _ _⟩

/-- C5: bounded scores.  For every item whose stored engagement credibility
(if present) lies in `[0,1]`, and any positive time window: all five
component scores returned by `calculate_composite_score` lie in `[0,1]`, and
under the default weights (0.30 / 0.25 / 0.15 / 0.15 / 0.15) the composite
score lies in `[0,1]` as well. -/
theorem composite_score_bounds (now : Int) (item : NewsItem) (tw : Nat)
    (kws : List String) (_hw : 0 < tw)
    (hcred : ∀ c, item.engagement = some c → 0 ≤ c ∧ c ≤ 1) :
    (0 ≤ (calculate_composite_score now item defaultWeights tw kws).recency_score ∧
      (calculate_composite_score now item defaultWeights tw kws).recency_score ≤ 1) ∧
    (0 ≤ (calculate_composite_score now item defaultWeights tw kws).credibility_score ∧
      (calculate_composite_score now item defaultWeights tw kws).credibility_score ≤ 1) ∧
    (0 ≤ (calculate_composite_score now item defaultWeights tw kws).engagement_score ∧
      (calculate_composite_score now item defaultWeights tw kws).engagement_score ≤ 1) ∧
    (0 ≤ (calculate_composite_score now item defaultWeights tw kws).uniqueness_score ∧
      (calculate_composite_score now item defaultWeights tw kws).uniqueness_score ≤ 1) ∧
    (0 ≤ (calculate_composite_score now item defaultWeights tw kws).relevance_score ∧
      (calculate_composite_score now item defaultWeights tw kws).relevance_score ≤ 1) ∧
    (0 ≤ (calculate_composite_score now item defaultWeights tw kws).score ∧
      (calculate_composite_score now item defaultWeights tw kws).score ≤ 1) := by
  have hr := recency_score_mem now item tw
  have hc := credibility_score_mem item hcred
  have hu := uniqueness_score_mem item
  have hv := relevance_score_mem item kws
  have hepr : (calculate_composite_score now item defaultWeights tw
      kws).engagement_score = 1 / 2 := rfl
  have hrpr : (calculate_composite_score now item defaultWeights tw
      kws).recency_score = calculate_recency_score now item tw := rfl
  have hcpr : (calculate_composite_score now item defaultWeights tw
      kws).credibility_score = calculate_credibility_score item := rfl
  have hupr : (calculate_composite_score now item defaultWeights tw
      kws).uniqueness_score = calculate_uniqueness_score item := rfl
  have hvpr : (calculate_composite_score now item defaultWeights tw
      kws).relevance_score = calculate_relevance_score item kws := rfl
  have hspr : (calculate_composite_score now item defaultWeights tw
      kws).score =
      3 / 10 * calculate_recency_score now item tw +
      1 / 4 * calculate_credibility_score item +
      3 / 20 * calculate_engagement_score item +
      3 / 20 * calculate_uniqueness_score item +
      3 / 20 * calculate_relevance_score item kws := rfl
  have hen : calculate_engagement_score item = 1 / 2 := rfl
  refine ⟨by rw [hrpr]; exact hr, by rw [hcpr]; exact hc,
    by rw [hepr]; norm_num, by rw [hupr]; exact hu,
    by rw [hvpr]; exact hv, ?_, ?_⟩
  · rw [hspr, hen]
    have := mul_nonneg (by norm_num : (0:ℝ) ≤ 3 / 10) hr.1
    have := mul_nonneg (by norm_num : (0:ℝ) ≤ 1 / 4) hc.1
    have := mul_nonneg (by norm_num : (0:ℝ) ≤ 3 / 20) hu.1
    have := mul_nonneg (by norm_num : (0:ℝ) ≤ 3 / 20) hv.1
    linarith
  · rw [hspr, hen]
    have := mul_le_of_le_one_right (by norm_num : (0:ℝ) ≤ 3 / 10) hr.2
    have := mul_le_of_le_one_right (by norm_num : (0:ℝ) ≤ 1 / 4) hc.2
    have := mul_le_of_le_one_right (by norm_num : (0:ℝ) ≤ 3 / 20) hu.2
    have := mul_le_of_le_one_right (by norm_num : (0:ℝ) ≤ 3 / 20) hv.2
    linarith

/-- Witness for C5: a credibility-0.9 item scored with the default weights
has its composite score in `[0,1]`. -/
theorem composite_score_bounds_witness :
    0 ≤ (calculate_composite_score 0
        (mkSampleItem "a" "ua" 0 (some (9 / 10)) []) defaultWeights 24 []).score ∧
    (calculate_composite_score 0
        (mkSampleItem "a" "ua" 0 (some (9 / 10)) []) defaultWeights 24 []).score ≤ 1 :=
  (composite_score_bounds 0 (mkSampleItem "a" "ua" 0 (some (9 / 10)) []) 24 []
    (by decide) (by intro c hc; injection hc with hc; subst hc; constructor <;> norm_num)
    ).2.2.2.2.2

/-- The singleton shortcut of `_select_best_item` agrees with the sorted
head, so every case is the head of the stable sort. -/
theorem _select_best_item_eq_sort (l : List NewsItem) :
    _select_best_item l = (l.insertionSort bestLe).headD default := by
  match l with
  | [] => rfl
  | [x] => rfl
  | a :: b :: t => rfl

/-- `bestLe` is reflexive. -/
theorem bestLe_refl (x : NewsItem) : bestLe x x :=
  Or.inr ⟨rfl, le_refl _⟩

/-- The selected best item belongs to the candidate list. -/
theorem best_item_mem (l : List NewsItem) (hne : l ≠ []) :
    _select_best_item l ∈ l := by
  rw [_select_best_item_eq_sort]
  have hperm := List.perm_insertionSort bestLe l
  cases hs : l.insertionSort bestLe with
  | nil =>
    rw [hs] at hperm
    exact absurd hperm.symm.eq_nil hne
  | cons a t =>
    rw [hs] at hperm
    exact hperm.mem_iff.mp (List.mem_cons_self a t)

/-- The selected best item is `bestLe`-minimal among the candidates. -/
theorem best_item_le (l : List NewsItem) (x : NewsItem) (hx : x ∈ l) :
    bestLe (_select_best_item l) x := by
  rw [_select_best_item_eq_sort]
  have hsorted := List.sorted_insertionSort bestLe l
  have hx' : x ∈ l.insertionSort bestLe :=
    (List.perm_insertionSort bestLe l).symm.mem_iff.mp hx
  cases hs : l.insertionSort bestLe with
  | nil =>
    rw [hs] at hx'
    cases hx'
  | cons a t =>
    rw [hs] at hx' hsorted
    rcases List.mem_cons.mp hx' with rfl | hmem
    · exact bestLe_refl _
    · exact (List.sorted_cons.mp hsorted).1 x hmem

/-- Mutual `bestLe` forces equality of the whole sort key. -/
theorem bestLe_antisymm_key (x y : NewsItem) (h1 : bestLe x y)
    (h2 : bestLe y x) :
    credibilityValue x = credibilityValue y ∧
    x.published_at = y.published_at := by
  rcases h1 with h1 | ⟨h1, h1'⟩ <;> rcases h2 with h2 | ⟨h2, h2'⟩
  · exact absurd h1 (not_lt.mpr h2.le)
  · exact absurd h1 (h2 ▸ lt_irrefl _)
  · exact absurd h2 (h1 ▸ lt_irrefl _)
  · exact ⟨h1, le_antisymm h2' h1'⟩

/-- C3 counterexample: two candidates that tie on both credibility (absent
on both sides, so 0.5) and `published_at` make `_select_best_item`
order-dependent — Python's stable sort keeps the input order on full key
ties, so each ordering returns its own first element, refuting the claimed
permutation invariance. -/
theorem select_best_item_order_dependent :
    ([mkSampleItem "b" "ub" 0 none [], mkSampleItem "a" "ua" 0 none []]).Perm
      [mkSampleItem "a" "ua" 0 none [], mkSampleItem "b" "ub" 0 none []] ∧
    _select_best_item
        [mkSampleItem "b" "ub" 0 none [], mkSampleItem "a" "ua" 0 none []] ≠
      _select_best_item
        [mkSampleItem "a" "ua" 0 none [], mkSampleItem "b" "ub" 0 none []] := by
  constructor
  · exact List.Perm.swap _ _ _
  · have hba : bestLe (mkSampleItem "b" "ub" 0 none [])
        (mkSampleItem "a" "ua" 0 none []) := Or.inr ⟨rfl, le_refl _⟩
    have hab : bestLe (mkSampleItem "a" "ua" 0 none [])
        (mkSampleItem "b" "ub" 0 none []) := Or.inr ⟨rfl, le_refl _⟩
    have e1 : _select_best_item
        [mkSampleItem "b" "ub" 0 none [], mkSampleItem "a" "ua" 0 none []] =
        mkSampleItem "b" "ub" 0 none [] := by
      rw [_select_best_item_eq_sort]
      simp [List.insertionSort, List.orderedInsert, hba]
    have e2 : _select_best_item
        [mkSampleItem "a" "ua" 0 none [], mkSampleItem "b" "ub" 0 none []] =
        mkSampleItem "a" "ua" 0 none [] := by
      rw [_select_best_item_eq_sort]
      simp [List.insertionSort, List.orderedInsert, hab]
    rw [e1, e2]
    simp [mkSampleItem]

/-- C3 amended: the tie-break is permutation-invariant on every candidate
set whose sort key `(credibility, published_at)` is injective (no two
distinct candidates share both credibility and timestamp); on full key ties
the stable sort falls back to input order and the claim fails. -/
theorem select_best_item_perm_invariant (l l' : List NewsItem)
    (hinj : ∀ x ∈ l, ∀ y ∈ l, credibilityValue x = credibilityValue y →
      x.published_at = y.published_at → x = y)
    (hperm : l'.Perm l) :
    _select_best_item l' = _select_best_item l := by
  cases l with
  | nil =>
    rw [hperm.eq_nil]
  | cons a t =>
    have hne : a :: t ≠ ([] : List NewsItem) := by simp
    have hne' : l' ≠ [] := by
      intro h
      rw [h] at hperm
      exact hne hperm.symm.eq_nil
    have hb := best_item_mem (a :: t) hne
    have hb' := best_item_mem l' hne'
    have hb'mem : _select_best_item l' ∈ a :: t := hperm.mem_iff.mp hb'
    have h1 : bestLe (_select_best_item (a :: t)) (_select_best_item l') :=
      best_item_le (a :: t) _ hb'mem
    have h2 : bestLe (_select_best_item l') (_select_best_item (a :: t)) :=
      best_item_le l' _ (hperm.symm.mem_iff.mp hb)
    obtain ⟨hc, ht⟩ := bestLe_antisymm_key _ _ h2 h1
    exact hinj _ hb'mem _ hb hc ht

/-- Witness for the amended C3: with distinct credibilities the two orderings
of a two-candidate set pick the same representative. -/
theorem select_best_item_perm_invariant_witness :
    _select_best_item
        [mkSampleItem "b" "ub" 5 none [], mkSampleItem "a" "ua" 0 (some 1) []] =
      _select_best_item
        [mkSampleItem "a" "ua" 0 (some 1) [], mkSampleItem "b" "ub" 5 none []] :=
  select_best_item_perm_invariant _ _
    (by
      intro x hx y hy _hcred hpub
      simp only [List.mem_cons, List.not_mem_nil, or_false] at hx hy
      rcases hx with rfl | rfl <;> rcases hy with rfl | rfl
      · rfl
      · exact absurd hpub (by decide)
      · exact absurd hpub (by decide)
      · rfl)
    (List.Perm.swap _ _ _)

/-! ### C9: threshold monotonicity -/

/-- `minBy` returns an element of its list. -/
theorem minBy_mem {α : Type} (f : α → ℚ) :
    ∀ (l : List α) (x : α), minBy f l = some x → x ∈ l := by
  intro l
  induction l with
  | nil => intro x hx; cases hx
  | cons a t ih =>
    intro x hx
    rw [minBy] at hx
    cases hm : minBy f t with
    | none =>
      rw [hm, Option.elim_none] at hx
      cases hx
      exact List.mem_cons_self _ _
    | some y =>
      rw [hm, Option.elim_some] at hx
      by_cases hle : f a ≤ f y
      · rw [if_pos hle] at hx
        cases hx
        exact List.mem_cons_self _ _
      · rw [if_neg hle] at hx
        cases hx
        exact List.mem_cons_of_mem _ (ih _ hm)

/-- Every pair produced by `allPairs k` satisfies `i < j < k`. -/
theorem allPairs_lt (k : Nat) (p : Nat × Nat) (hp : p ∈ allPairs k) :
    p.1 < p.2 ∧ p.2 < k := by
  rw [allPairs] at hp
  rw [List.mem_flatten] at hp
  obtain ⟨s, hs, hps⟩ := hp
  rw [List.mem_map] at hs
  obtain ⟨i, hi, rfl⟩ := hs
  rw [List.mem_map] at hps
  obtain ⟨j, hj, rfl⟩ := hps
  have hj' := List.of_mem_filter hj
  have hjr := List.mem_of_mem_filter hj
  simp only [decide_eq_true_eq] at hj'
  exact ⟨hj', List.mem_range.mp hjr⟩

/-- Merging two distinct clusters at positions `i < j < |cs|` shrinks the
cluster list by one. -/
theorem mergeAt_length (cs : List (List Nat)) (i j : Nat) (hij : i < j)
    (hj : j < cs.length) : (mergeAt cs i j).length = cs.length - 1 := by
  rw [mergeAt, List.length_cons,
    List.length_eraseIdx_of_lt (by rw [List.length_eraseIdx_of_lt hj]; omega),
    List.length_eraseIdx_of_lt hj]
  omega

/-- The merge loop never increases the number of clusters. -/
theorem agglomerate_length_le (d : Nat → Nat → ℚ) (t : ℚ) (fuel : Nat) :
    ∀ cs, (agglomerate d t fuel cs).length ≤ cs.length := by
  induction fuel with
  | zero => intro cs; rw [agglomerate]
  | succ n ih =>
    intro cs
    rw [agglomerate]
    cases hm : minBy (fun p => avgDist d (cs.getD p.1 []) (cs.getD p.2 []))
        (allPairs cs.length) with
    | none => rw [Option.elim_none]
    | some p =>
      rw [Option.elim_some]
      obtain ⟨hij, hj⟩ := allPairs_lt _ _ (minBy_mem _ _ _ hm)
      by_cases hc : mergeCond (avgDist d (cs.getD p.1 []) (cs.getD p.2 [])) t
      · rw [if_pos hc]
        calc (agglomerate d t n (mergeAt cs p.1 p.2)).length
            ≤ (mergeAt cs p.1 p.2).length := ih _
          _ ≤ cs.length := by rw [mergeAt_length cs p.1 p.2 hij hj]; omega
      · rw [if_neg hc]

/-- Shrinking the (squared) distance threshold can only forbid merges. -/
theorem mergeCond_mono {a t t' : ℚ} (ht : t' ≤ t) (h : mergeCond a t') :
    mergeCond a t := by
  rcases h with h | ⟨h0, hsq⟩
  · exact Or.inl h
  · exact Or.inr ⟨h0, lt_of_lt_of_le hsq ht⟩

/-- A smaller squared threshold yields at least as many clusters. -/
theorem agglomerate_mono (d : Nat → Nat → ℚ) (t t' : ℚ) (ht : t' ≤ t)
    (fuel : Nat) :
    ∀ cs, (agglomerate d t fuel cs).length ≤
      (agglomerate d t' fuel cs).length := by
  induction fuel with
  | zero => intro cs; rw [agglomerate, agglomerate]
  | succ n ih =>
    intro cs
    rw [agglomerate, agglomerate]
    cases hm : minBy (fun p => avgDist d (cs.getD p.1 []) (cs.getD p.2 []))
        (allPairs cs.length) with
    | none => simp only [Option.elim_none]; exact le_refl _
    | some p =>
      simp only [Option.elim_some]
      obtain ⟨hij, hj⟩ := allPairs_lt _ _ (minBy_mem _ _ _ hm)
      by_cases hc' : mergeCond (avgDist d (cs.getD p.1 []) (cs.getD p.2 [])) t'
      · rw [if_pos hc', if_pos (mergeCond_mono ht hc')]
        exact ih _
      · rw [if_neg hc']
        by_cases hc : mergeCond (avgDist d (cs.getD p.1 []) (cs.getD p.2 [])) t
        · rw [if_pos hc]
          calc (agglomerate d t n (mergeAt cs p.1 p.2)).length
              ≤ (mergeAt cs p.1 p.2).length := agglomerate_length_le d t n _
            _ ≤ cs.length := by rw [mergeAt_length cs p.1 p.2 hij hj]; omega
        · rw [if_neg hc]

/-- C9 amended: in standard mode, raising the duplicate threshold never
increases the number of detected duplicates (input count minus output count
of `deduplicate`); in chain mode the corresponding statement is refuted by
`chain_mode_not_threshold_monotone`. -/
theorem standard_mode_threshold_mono (items : List NewsItem)
    (sim d : Nat → Nat → ℚ) (τ τ' τc : ℚ) (hτ : τ ≤ τ') :
    items.length - (deduplicate items sim d τ' τc false).length ≤
      items.length - (deduplicate items sim d τ τc false).length := by
  rw [deduplicate, deduplicate]
  by_cases h0 : items.length = 0
  · rw [if_pos h0, if_pos h0]
  · rw [if_neg h0, if_neg h0]
    simp only [Bool.false_eq_true, if_false]
    apply Nat.sub_le_sub_left
    rw [_select_representatives, _select_representatives,
      List.length_map, List.length_map]
    rw [_cluster_embeddings, _cluster_embeddings]
    by_cases h1 : items.length = 1
    · rw [if_pos h1, if_pos h1]
    · rw [if_neg h1, if_neg h1]
      exact agglomerate_mono d (2 * (1 - τ)) (2 * (1 - τ')) (by linarith) _ _

/-- Witness for the amended C9: two singleton items under thresholds
0.85 ≤ 0.95. -/
theorem standard_mode_threshold_mono_witness :
    ([mkSampleItem "a" "ua" 0 (some 1) [],
        mkSampleItem "b" "ub" 0 (some 1) []].length -
      (deduplicate
        [mkSampleItem "a" "ua" 0 (some 1) [],
          mkSampleItem "b" "ub" 0 (some 1) []]
        (fun _ _ => 0) (fun _ _ => 1) (95 / 100) (75 / 100) false).length) ≤
    ([mkSampleItem "a" "ua" 0 (some 1) [],
        mkSampleItem "b" "ub" 0 (some 1) []].length -
      (deduplicate
        [mkSampleItem "a" "ua" 0 (some 1) [],
          mkSampleItem "b" "ub" 0 (some 1) []]
        (fun _ _ => 0) (fun _ _ => 1) (85 / 100) (75 / 100) false).length) :=
  standard_mode_threshold_mono _ _ _ _ _ _ (by norm_num)

/-- C9 counterexample (chain mode): with four same-day items where
sim(a,b) = 0.86 and sim(b,c) = sim(b,d) = 0.95, raising the duplicate
threshold from 0.85 to 0.90 *increases* the number of detected duplicates
from 1 to 2: at 0.85 item `a` absorbs `b` (so `b` can absorb nothing), while
at 0.90 the pair (a,b) no longer merges and `b` absorbs both `c` and `d`.
The greedy left-to-right pass of `_smart_deduplicate` is therefore not
threshold-monotone, refuting the chain-mode half of the claim. -/
theorem chain_mode_not_threshold_monotone :
    q085 < q090 ∧
    chainItems.length -
        (deduplicate chainItems chainSim (fun _ _ => 0) q085 q075 true).length <
      chainItems.length -
        (deduplicate chainItems chainSim (fun _ _ => 0) q090 q075 true).length := by
  constructor
  · decide
  · decide

/-! ### C10: no self-duplicate -/

/-- Elements of a `getD`-indexed cluster satisfy any property satisfied by
all clusters of the list. -/
theorem getD_cluster_prop (P : Nat → Prop) (cs : List (List Nat))
    (hcs : ∀ c ∈ cs, ∀ i ∈ c, P i) (a : Nat) :
    ∀ i ∈ cs.getD a [], P i := by
  intro i hi
  by_cases ha : a < cs.length
  · rw [List.getD_eq_getElem cs [] ha] at hi
    exact hcs _ (List.getElem_mem ha) i hi
  · rw [List.getD_eq_default cs [] (le_of_not_lt ha)] at hi
    cases hi

/-- Index bounds survive the agglomerative merge loop. -/
theorem agglomerate_indices (d : Nat → Nat → ℚ) (t : ℚ) (P : Nat → Prop)
    (fuel : Nat) :
    ∀ cs, (∀ c ∈ cs, ∀ i ∈ c, P i) →
      ∀ c ∈ agglomerate d t fuel cs, ∀ i ∈ c, P i := by
  induction fuel with
  | zero => intro cs hcs; rw [agglomerate]; exact hcs
  | succ n ih =>
    intro cs hcs
    rw [agglomerate]
    cases hm : minBy (fun p => avgDist d (cs.getD p.1 []) (cs.getD p.2 []))
        (allPairs cs.length) with
    | none => rw [Option.elim_none]; exact hcs
    | some p =>
      rw [Option.elim_some]
      by_cases hc : mergeCond (avgDist d (cs.getD p.1 []) (cs.getD p.2 [])) t
      · rw [if_pos hc]
        apply ih
        intro c hcmem i hi
        rw [mergeAt] at hcmem
        rcases List.mem_cons.mp hcmem with rfl | htail
        · rcases List.mem_append.mp hi with h | h
          · exact getD_cluster_prop P cs hcs _ _ h
          · exact getD_cluster_prop P cs hcs _ _ h
        · have : c ∈ cs :=
            ((List.eraseIdx_sublist _ _).trans
              (List.eraseIdx_sublist cs p.2)).mem htail
          exact hcs c this i hi
      · rw [if_neg hc]; exact hcs

/-- C10, standard-mode core: every representative produced by
`_select_representatives` carries a `duplicates` list free of its own URL,
provided all cluster indices are in range and ids are a pure function of
URLs on the item list. -/
theorem select_representatives_no_self (items : List NewsItem)
    (clusters : List (List Nat))
    (hrange : ∀ c ∈ clusters, ∀ i ∈ c, i < items.length)
    (hpure : ∀ x ∈ items, ∀ y ∈ items, x.url = y.url → x.id = y.id) :
    ∀ x ∈ _select_representatives items clusters,
      x.url ∉ x.duplicates := by
  intro x hx hcontra
  rw [_select_representatives] at hx
  rw [List.mem_map] at hx
  obtain ⟨c, hc, rfl⟩ := hx
  dsimp only at hcontra
  rw [List.mem_map] at hcontra
  obtain ⟨y, hyf, hyurl⟩ := hcontra
  have hyc := List.mem_of_mem_filter hyf
  have hyne := List.of_mem_filter hyf
  simp only [decide_eq_true_eq] at hyne
  rw [List.mem_map] at hyc
  obtain ⟨i, hi, rfl⟩ := hyc
  have hyitems : items.getD i default ∈ items := by
    rw [List.getD_eq_getElem items default (hrange c hc i hi)]
    exact List.getElem_mem _
  have hne : (c.map fun i => items.getD i default) ≠ [] := by
    intro hnil
    rw [List.map_eq_nil_iff] at hnil
    subst hnil
    cases hi
  have hrepmem := best_item_mem _ hne
  rw [List.mem_map] at hrepmem
  obtain ⟨ir, hir, hreq⟩ := hrepmem
  have hrepitems : _select_best_item (c.map fun i => items.getD i default) ∈
      items := by
    rw [← hreq, List.getD_eq_getElem items default (hrange c hc ir hir)]
    exact List.getElem_mem _
  exact hyne (hpure _ hyitems _ hrepitems hyurl)

/-- The selected best index belongs to the candidate group. -/
theorem selectBestIdx_mem (st : Nat → NewsItem) (g : List Nat)
    (hne : g ≠ []) : selectBestIdx st g ∈ g := by
  match g, hne with
  | [j], _ => exact List.mem_singleton_self j
  | a :: b :: t, _ =>
    show ((a :: b :: t).insertionSort (idxLe st)).headD 0 ∈ a :: b :: t
    have hperm := List.perm_insertionSort (idxLe st) (a :: b :: t)
    cases hs : (a :: b :: t).insertionSort (idxLe st) with
    | nil =>
      rw [hs] at hperm
      cases hperm.symm.eq_nil
    | cons x xs =>
      rw [hs] at hperm
      exact hperm.mem_iff.mp (List.mem_cons_self x xs)

/-- Members of a group are in range. -/
theorem groupOf_lt (n : Nat) (sim : Nat → Nat → ℚ) (τd : ℚ) (s : SState)
    (i : Nat) (hi : i < n) : ∀ j ∈ groupOf n sim τd s i, j < n := by
  intro j hj
  rcases List.mem_cons.mp hj with rfl | hj
  · exact hi
  · have := List.mem_of_mem_filter hj
    rw [candsOf] at this
    exact List.mem_range.mp (List.mem_of_mem_filter this)

/-- Members of a group are unprocessed. -/
theorem groupOf_unprocessed (n : Nat) (sim : Nat → Nat → ℚ) (τd : ℚ)
    (s : SState) (i : Nat) (hp : i ∉ s.processed) :
    ∀ j ∈ groupOf n sim τd s i, j ∉ s.processed := by
  intro j hj
  rcases List.mem_cons.mp hj with rfl | hj
  · exact hp
  · have hmem := List.mem_of_mem_filter hj
    rw [candsOf] at hmem
    have := List.of_mem_filter hmem
    simp only [Bool.and_eq_true, decide_eq_true_eq] at this
    exact this.2

/-- A pointwise update that changes neither `id` nor `url` preserves both
fields everywhere. -/
theorem update_id_url (st : Nat → NewsItem) (b : Nat) (v : NewsItem)
    (hid : v.id = (st b).id) (hurl : v.url = (st b).url) (k : Nat) :
    ((Function.update st b v) k).id = (st k).id ∧
    ((Function.update st b v) k).url = (st k).url := by
  by_cases hk : k = b
  · subst hk
    rw [Function.update_same]
    exact ⟨hid, hurl⟩
  · rw [Function.update_noteq hk]
    exact ⟨rfl, rfl⟩

/-- One `smartStep` preserves the pass invariant. -/
theorem smartStep_keepInv (items : List NewsItem) (n : Nat)
    (sim : Nat → Nat → ℚ) (τd τc : ℚ) (hn : n ≤ items.length)
    (hpure : ∀ x ∈ items, ∀ y ∈ items, x.url = y.url → x.id = y.id)
    (s : SState) (i : Nat) (hi : i < n) (hinv : KeepInv items s) :
    KeepInv items (smartStep n sim τd τc s i) := by
  obtain ⟨hidurl, hkp, hdup⟩ := hinv
  rw [smartStep]
  by_cases hp : i ∈ s.processed
  · rw [if_pos hp]
    exact ⟨hidurl, hkp, hdup⟩
  · rw [if_neg hp]
    set B := bestIdxOf n sim τd s i with hB
    have hBgroup : B ∈ groupOf n sim τd s i := by
      rw [hB, bestIdxOf]
      exact selectBestIdx_mem _ _ (by rw [groupOf]; exact List.cons_ne_nil _ _)
    have hBn : B < n := groupOf_lt n sim τd s i hi _ hBgroup
    have hBnp : B ∉ s.processed := groupOf_unprocessed n sim τd s i hp _ hBgroup
    have hitems : ∀ j, j < n → items.getD j default ∈ items := by
      intro j hj
      rw [List.getD_eq_getElem items default (lt_of_lt_of_le hj hn)]
      exact List.getElem_mem _
    have hnoself : (s.st B).url ∉ dupUrlsOf n sim τd s i := by
      intro hmem
      rw [dupUrlsOf] at hmem
      rw [List.mem_map] at hmem
      obtain ⟨y, hyf, hyurl⟩ := hmem
      have hyg := List.mem_of_mem_filter hyf
      have hyne := List.of_mem_filter hyf
      simp only [decide_eq_true_eq, ← hB] at hyne
      rw [List.mem_map] at hyg
      obtain ⟨j, hj, rfl⟩ := hyg
      have hjn : j < n := groupOf_lt n sim τd s i hi _ hj
      have hurl : (items.getD j default).url = (items.getD B default).url := by
        rw [← (hidurl j).2, ← (hidurl B).2]
        exact hyurl
      have hid := hpure _ (hitems j hjn) _ (hitems B hBn) hurl
      apply hyne
      rw [(hidurl j).1, (hidurl B).1, hid]
    dsimp only
    by_cases hcm : 1 < (chainMembersOf n sim τd τc s i).length
    · rw [if_pos hcm]
      refine ⟨?_, ?_, ?_⟩
      · intro k
        try dsimp only
        by_cases hk : k = B
        · subst hk
          rw [Function.update_same]
          constructor
          · dsimp only
            rw [Function.update_same]
            exact (hidurl B).1
          · dsimp only
            rw [Function.update_same]
            exact (hidurl B).2
        · rw [Function.update_noteq hk, Function.update_noteq hk]
          exact hidurl k
      · intro k hk
        try dsimp only at hk ⊢
        rcases List.mem_append.mp hk with hk | hk
        · exact List.mem_append.mpr (Or.inl (hkp k hk))
        · rw [List.mem_singleton] at hk
          subst hk
          rw [groupOf] at hBgroup
          exact List.mem_append.mpr (Or.inr hBgroup)
      · intro k hk
        try dsimp only at hk ⊢
        rcases List.mem_append.mp hk with hk | hk
        · have hkB : k ≠ B := fun h => hBnp (h ▸ hkp k hk)
          rw [Function.update_noteq hkB, Function.update_noteq hkB]
          exact hdup k hk
        · rw [List.mem_singleton] at hk
          subst hk
          rw [Function.update_same]
          dsimp only
          rw [Function.update_same]
          exact hnoself
    · rw [if_neg hcm]
      refine ⟨?_, ?_, ?_⟩
      · intro k
        try dsimp only
        by_cases hk : k = B
        · subst hk
          rw [Function.update_same]
          exact ⟨(hidurl B).1, (hidurl B).2⟩
        · rw [Function.update_noteq hk]
          exact hidurl k
      · intro k hk
        try dsimp only at hk ⊢
        rcases List.mem_append.mp hk with hk | hk
        · exact List.mem_append.mpr (Or.inl (hkp k hk))
        · rw [List.mem_singleton] at hk
          subst hk
          rw [groupOf] at hBgroup
          exact List.mem_append.mpr (Or.inr hBgroup)
      · intro k hk
        try dsimp only at hk ⊢
        rcases List.mem_append.mp hk with hk | hk
        · have hkB : k ≠ B := fun h => hBnp (h ▸ hkp k hk)
          rw [Function.update_noteq hkB]
          exact hdup k hk
        · rw [List.mem_singleton] at hk
          subst hk
          rw [Function.update_same]
          exact hnoself

/-- The whole `_smart_deduplicate` pass preserves the invariant. -/
theorem smartFold_keepInv (items : List NewsItem) (n : Nat)
    (sim : Nat → Nat → ℚ) (τd τc : ℚ) (hn : n ≤ items.length)
    (hpure : ∀ x ∈ items, ∀ y ∈ items, x.url = y.url → x.id = y.id) :
    ∀ (l : List Nat) (s : SState), (∀ i ∈ l, i < n) → KeepInv items s →
      KeepInv items (l.foldl (smartStep n sim τd τc) s) := by
  intro l
  induction l with
  | nil => intro s _ hinv; exact hinv
  | cons a t ih =>
    intro s hl hinv
    rw [List.foldl_cons]
    exact ih _ (fun i hi => hl i (List.mem_cons_of_mem _ hi))
      (smartStep_keepInv items n sim τd τc hn hpure s a
        (hl a (List.mem_cons_self _ _)) hinv)

/-- The trailing chain-id assignment touches only `story_chain_id`. -/
theorem assignChain_fields (n : Nat) (keep : List Nat) (cid : String)
    (st : Nat → NewsItem) (idx k : Nat) :
    ((assignChain n keep cid st idx) k).url = (st k).url ∧
    ((assignChain n keep cid st idx) k).duplicates = (st k).duplicates := by
  rw [assignChain]
  split
  · by_cases hk : k = idx
    · subst hk
      rw [Function.update_same]
      exact ⟨rfl, rfl⟩
    · rw [Function.update_noteq hk]
      exact ⟨rfl, rfl⟩
  · exact ⟨rfl, rfl⟩

/-- Folding the chain-id assignment over one member list touches only
`story_chain_id`. -/
theorem assignFold_fields (n : Nat) (keep : List Nat) (cid : String) :
    ∀ (ms : List Nat) (st : Nat → NewsItem) (k : Nat),
    ((ms.foldl (assignChain n keep cid) st) k).url = (st k).url ∧
    ((ms.foldl (assignChain n keep cid) st) k).duplicates =
      (st k).duplicates := by
  intro ms
  induction ms with
  | nil => intro st k; exact ⟨rfl, rfl⟩
  | cons a t ih =>
    intro st k
    rw [List.foldl_cons]
    have h1 := assignChain_fields n keep cid st a k
    have h2 := ih (assignChain n keep cid st a) k
    exact ⟨h2.1.trans h1.1, h2.2.trans h1.2⟩

/-- Folding over all chains touches only `story_chain_id`. -/
theorem chainsFold_fields (n : Nat) (keep : List Nat) :
    ∀ (cs : List (String × List Nat)) (st : Nat → NewsItem) (k : Nat),
    ((cs.foldl (fun st c => c.2.foldl (assignChain n keep c.1) st) st) k).url =
      (st k).url ∧
    ((cs.foldl (fun st c => c.2.foldl (assignChain n keep c.1) st) st)
        k).duplicates = (st k).duplicates := by
  intro cs
  induction cs with
  | nil => intro st k; exact ⟨rfl, rfl⟩
  | cons c t ih =>
    intro st k
    rw [List.foldl_cons]
    have h1 := assignFold_fields n keep c.1 c.2 st k
    have h2 := ih (c.2.foldl (assignChain n keep c.1) st) k
    exact ⟨h2.1.trans h1.1, h2.2.trans h1.2⟩

/-- C10: no self-duplicate.  For every input list in which ids and URLs
determine each other (`id` a pure function of `url`, distinct urls giving
distinct ids), every item returned by `deduplicate` — in standard and in
chain mode — has a `duplicates` list that does not contain the item's own
URL. -/
theorem deduplicate_no_self_duplicate (items : List NewsItem)
    (sim d : Nat → Nat → ℚ) (τd τc : ℚ) (mode : Bool)
    (hpure : ∀ x ∈ items, ∀ y ∈ items, x.id = y.id ↔ x.url = y.url) :
    ∀ x ∈ deduplicate items sim d τd τc mode, x.url ∉ x.duplicates := by
  have hpure' : ∀ x ∈ items, ∀ y ∈ items, x.url = y.url → x.id = y.id :=
    fun x hx y hy h => (hpure x hx y hy).mpr h
  rw [deduplicate]
  by_cases h0 : items.length = 0
  · rw [if_pos h0]
    intro x hx
    cases hx
  · rw [if_neg h0]
    cases mode with
    | false =>
      simp only [Bool.false_eq_true, if_false]
      apply select_representatives_no_self items _ _ hpure'
      rw [_cluster_embeddings]
      by_cases h1 : items.length = 1
      · rw [if_pos h1]
        intro c hc i hi
        rw [List.mem_singleton] at hc
        subst hc
        rw [List.mem_singleton] at hi
        subst hi
        omega
      · rw [if_neg h1]
        apply agglomerate_indices
        intro c hc i hi
        rw [List.mem_map] at hc
        obtain ⟨j, hj, rfl⟩ := hc
        rw [List.mem_singleton] at hi
        subst hi
        exact List.mem_range.mp hj
    | true =>
      simp only [if_true]
      rw [_smart_deduplicate]
      intro x hx
      try dsimp only at hx
      set s1 := (List.range items.length).foldl
        (smartStep items.length sim τd τc)
        ⟨fun k => items.getD k default, [], [], []⟩ with hs1
      rw [List.mem_map] at hx
      obtain ⟨k, hk, rfl⟩ := hx
      have hinv : KeepInv items s1 := by
        rw [hs1]
        exact smartFold_keepInv items items.length sim τd τc (le_refl _)
          hpure' _ _ (fun i hi => List.mem_range.mp hi)
          ⟨fun _ => ⟨rfl, rfl⟩, fun _ hk => absurd hk (List.not_mem_nil _),
            fun _ hk => absurd hk (List.not_mem_nil _)⟩
      have hf := chainsFold_fields items.length s1.keep s1.chains s1.st k
      rw [hf.1, hf.2]
      exact hinv.2.2 k hk

/-- Witness for C10: the four-item chain-mode run keeps every produced
item's own URL out of its `duplicates`. -/
theorem deduplicate_no_self_duplicate_witness :
    List.Forall (fun x => x.url ∉ x.duplicates)
      (deduplicate chainItems chainSim (fun _ _ => 0) q085 q075 true) :=
  List.forall_iff_forall_mem.mpr
    (deduplicate_no_self_duplicate chainItems chainSim (fun _ _ => 0)
      q085 q075 true (by decide))

/-! ### C2: chain mode on two items -/

/-- The second outer-loop iteration and the trailing chain-assignment loop
of the two-item chain scenario, for an arbitrary state function `g` left by
the first iteration. -/
theorem smart_tail (g : Nat → NewsItem) (sim : Nat → Nat → ℚ) (τd τc : ℚ)
    (cid : String) :
    ((smartStep 2 sim τd τc ⟨g, [0], [0], [(cid, [0, 1])]⟩ 1).keep.map
      ((smartStep 2 sim τd τc ⟨g, [0], [0], [(cid, [0, 1])]⟩ 1).chains.foldl
        (fun st c => c.2.foldl
          (assignChain 2 (smartStep 2 sim τd τc
            ⟨g, [0], [0], [(cid, [0, 1])]⟩ 1).keep c.1) st)
        (smartStep 2 sim τd τc ⟨g, [0], [0], [(cid, [0, 1])]⟩ 1).st)) =
      [{g 0 with story_chain_id := some cid},
       {g 1 with duplicates := [], story_chain_id := some cid}] := by
  have hdup1 : dupUrlsOf 2 sim τd ⟨g, [0], [0], [(cid, [0, 1])]⟩ 1 = [] := by
    rw [dupUrlsOf]
    rw [show groupOf 2 sim τd (⟨g, [0], [0], [(cid, [0, 1])]⟩ : SState) 1 =
      [1] from rfl]
    rw [show bestIdxOf 2 sim τd (⟨g, [0], [0], [(cid, [0, 1])]⟩ : SState) 1 =
      1 from rfl]
    simp
  have hstep1 : smartStep 2 sim τd τc ⟨g, [0], [0], [(cid, [0, 1])]⟩ 1 =
      ⟨Function.update g 1 { g 1 with duplicates := [] }, [0, 1], [0, 1],
        [(cid, [0, 1])]⟩ := by
    rw [smartStep, if_neg (by decide : ¬(1 ∈ ([0] : List Nat)))]
    dsimp only
    rw [hdup1]
    rw [show chainMembersOf 2 sim τd τc
      (⟨g, [0], [0], [(cid, [0, 1])]⟩ : SState) 1 = [1] from rfl]
    rw [if_neg (by decide : ¬(1 < ([1] : List Nat).length))]
    exact rfl
  rw [hstep1]
  dsimp only
  rw [List.foldl_cons, List.foldl_nil]
  dsimp only
  rw [List.foldl_cons, List.foldl_cons, List.foldl_nil]
  rw [assignChain, if_pos ⟨by decide,
    List.mem_cons_of_mem _ (List.mem_cons_self _ _)⟩]
  rw [assignChain, if_pos ⟨by decide,
    List.mem_cons_self _ _⟩]
  exact rfl

/-- Chain-mode pass on two items with mid-band similarity and a ≥1-day gap:
both items survive and both carry the chain id derived from the first item's
title prefix and timestamp. -/
theorem smart_two_chain (a b : NewsItem) (sim : Nat → Nat → ℚ) (τd τc : ℚ)
    (h1 : τc ≤ sim 0 1) (h2 : sim 0 1 < τd) (hd : 1 ≤ timeDiffDays a b) :
    _smart_deduplicate [a, b] sim τd τc =
      [{a with duplicates := [], story_chain_id := some (chainIdOf a)},
       {b with duplicates := [], story_chain_id := some (chainIdOf a)}] := by
  have hb2 : decide (τd ≤ sim 0 1) = false := decide_eq_false (not_le.mpr h2)
  have hb1 : decide (τc ≤ sim 0 1) = true := decide_eq_true h1
  have hb3 : decide (sim 0 1 < τd) = true := decide_eq_true h2
  have htd0 : decide (timeDiffDays a b = 0) = false :=
    decide_eq_false (by omega)
  have htd1 : decide (0 < timeDiffDays a b) = true :=
    decide_eq_true (by omega)
  rw [_smart_deduplicate]
  simp only [List.length_cons, List.length_nil, Nat.reduceAdd]
  rw [show (List.range 2 : List Nat) = [0, 1] from rfl]
  rw [List.foldl_cons, List.foldl_cons, List.foldl_nil]
  -- evaluate the first outer-loop iteration (i = 0)
  have hcands : candsOf 2 ⟨fun k => [a, b].getD k default, [], [], []⟩ 0 =
      [1] := rfl
  have hdups : dupsOf 2 sim τd
      ⟨fun k => [a, b].getD k default, [], [], []⟩ 0 = [] := by
    rw [dupsOf, hcands]
    simp only [List.filter, hb2, Bool.false_and]
  have hgroup : groupOf 2 sim τd
      ⟨fun k => [a, b].getD k default, [], [], []⟩ 0 = [0] := by
    rw [groupOf, hdups]
  have hbest : bestIdxOf 2 sim τd
      ⟨fun k => [a, b].getD k default, [], [], []⟩ 0 = 0 := by
    rw [bestIdxOf, hgroup]
    exact rfl
  have hchain : chainMembersOf 2 sim τd τc
      ⟨fun k => [a, b].getD k default, [], [], []⟩ 0 = [0, 1] := by
    rw [chainMembersOf, hcands]
    simp only [List.filter, List.getD_cons_zero, List.getD_cons_succ, hb1,
      hb3, htd1, Bool.and_self, Bool.true_and, Bool.and_true]
  have hdupurls : dupUrlsOf 2 sim τd
      ⟨fun k => [a, b].getD k default, [], [], []⟩ 0 = [] := by
    rw [dupUrlsOf, hgroup, hbest]
    simp
  have hstep0 : smartStep 2 sim τd τc
      ⟨fun k => [a, b].getD k default, [], [], []⟩ 0 =
      ⟨Function.update
          (Function.update (fun k => [a, b].getD k default) 0
            { a with duplicates := [] }) 0
          { a with duplicates := [], story_chain_id := some (chainIdOf a) },
        [0], [0], [(chainIdOf a, [0, 1])]⟩ := by
    rw [smartStep, if_neg (List.not_mem_nil 0)]
    dsimp only
    rw [hbest, hdupurls, hchain, hdups]
    rw [if_pos (by decide : 1 < ([0, 1] : List Nat).length)]
    rw [Function.update_same]
    exact rfl
  rw [hstep0]
  exact smart_tail _ sim τd τc (chainIdOf a)

/-- Chain-mode pass on two items with same-day high similarity: the second
item is absorbed, one representative survives. -/
theorem smart_two_dup (a b : NewsItem) (sim : Nat → Nat → ℚ) (τd τc : ℚ)
    (h : τd ≤ sim 0 1) (hd : timeDiffDays a b = 0) :
    (_smart_deduplicate [a, b] sim τd τc).length = 1 := by
  have hb : decide (τd ≤ sim 0 1) = true := decide_eq_true h
  have hb3 : decide (sim 0 1 < τd) = false := decide_eq_false (not_lt.mpr h)
  have htd : decide (timeDiffDays a b = 0) = true := decide_eq_true hd
  rw [_smart_deduplicate]
  simp only [List.length_cons, List.length_nil, Nat.reduceAdd]
  rw [show (List.range 2 : List Nat) = [0, 1] from rfl]
  rw [List.foldl_cons, List.foldl_cons, List.foldl_nil]
  have hcands : candsOf 2 ⟨fun k => [a, b].getD k default, [], [], []⟩ 0 =
      [1] := rfl
  have hdups : dupsOf 2 sim τd
      ⟨fun k => [a, b].getD k default, [], [], []⟩ 0 = [1] := by
    rw [dupsOf, hcands]
    simp only [List.filter, List.getD_cons_zero, List.getD_cons_succ, hb,
      htd, Bool.and_self, Bool.true_and, Bool.and_true]
  have hchain : chainMembersOf 2 sim τd τc
      ⟨fun k => [a, b].getD k default, [], [], []⟩ 0 = [0] := by
    rw [chainMembersOf, hcands]
    simp only [List.filter, List.getD_cons_zero, List.getD_cons_succ, hb3,
      Bool.and_false, Bool.false_and]
  have hproc0 : (smartStep 2 sim τd τc
      ⟨fun k => [a, b].getD k default, [], [], []⟩ 0).processed = [0, 1] := by
    rw [smartStep, if_neg (List.not_mem_nil 0)]
    dsimp only
    rw [hchain, if_neg (by decide : ¬(1 < ([0] : List Nat).length))]
    dsimp only
    rw [hdups]
    exact rfl
  have hkeep0 : (smartStep 2 sim τd τc
      ⟨fun k => [a, b].getD k default, [], [], []⟩ 0).keep.length = 1 := by
    rw [smartStep, if_neg (List.not_mem_nil 0)]
    dsimp only
    rw [hchain, if_neg (by decide : ¬(1 < ([0] : List Nat).length))]
    exact rfl
  rw [List.length_map]
  rw [smartStep]
  rw [if_pos (show (1 : Nat) ∈ (smartStep 2 sim τd τc
      ⟨fun k => [a, b].getD k default, [], [], []⟩ 0).processed by
    rw [hproc0]; decide)]
  exact hkeep0

/-- C2: in chain mode, two items with mid-band similarity
(`chain_threshold ≤ s < threshold`) published at least one day apart both
survive `deduplicate` and carry the same non-null `story_chain_id` (the id
derived from the first item), while two items with similarity ≥ threshold
whose dates differ by 0 days are merged into a single representative. -/
theorem chain_mode_two_item_spec :
    (∀ (a b : NewsItem) (sim d : Nat → Nat → ℚ) (τd τc : ℚ),
      τc ≤ sim 0 1 → sim 0 1 < τd → 1 ≤ timeDiffDays a b →
      deduplicate [a, b] sim d τd τc true =
        [{a with duplicates := [], story_chain_id := some (chainIdOf a)},
         {b with duplicates := [], story_chain_id := some (chainIdOf a)}]) ∧
    (∀ (a b : NewsItem) (sim d : Nat → Nat → ℚ) (τd τc : ℚ),
      τd ≤ sim 0 1 → timeDiffDays a b = 0 →
      (deduplicate [a, b] sim d τd τc true).length = 1) := by
  constructor
  · intro a b sim d τd τc h1 h2 hd
    have he : deduplicate [a, b] sim d τd τc true =
        _smart_deduplicate [a, b] sim τd τc := rfl
    rw [he]
    exact smart_two_chain a b sim τd τc h1 h2 hd
  · intro a b sim d τd τc h hd
    have he : deduplicate [a, b] sim d τd τc true =
        _smart_deduplicate [a, b] sim τd τc := rfl
    rw [he]
    exact smart_two_dup a b sim τd τc h hd

/-- Witness for C2: two concrete items 3 days apart with similarity 0.80
(0.75 ≤ 0.80 < 0.85) both survive with the same chain id; two items 100
seconds apart (0 days) with similarity 0.95 ≥ 0.85 merge to one. -/
theorem chain_mode_two_item_spec_witness :
    (deduplicate [mkSampleItem "a" "ua" 259200 (some 1) [],
        mkSampleItem "b" "ub" 0 (some 1) []] (fun _ _ => q080) (fun _ _ => 0)
        q085 q075 true).map (fun x => x.story_chain_id) =
      [some (chainIdOf (mkSampleItem "a" "ua" 259200 (some 1) [])),
       some (chainIdOf (mkSampleItem "a" "ua" 259200 (some 1) []))] ∧
    (deduplicate [mkSampleItem "a" "ua" 100 (some 1) [],
        mkSampleItem "b" "ub" 0 (some 1) []] (fun _ _ => q095) (fun _ _ => 0)
        q085 q075 true).length = 1 := by
  constructor
  · rw [chain_mode_two_item_spec.1 (mkSampleItem "a" "ua" 259200 (some 1) [])
      (mkSampleItem "b" "ub" 0 (some 1) []) (fun _ _ => q080) (fun _ _ => 0)
      q085 q075 (by decide) (by decide) (by decide)]
    rfl
  · exact chain_mode_two_item_spec.2 (mkSampleItem "a" "ua" 100 (some 1) [])
      (mkSampleItem "b" "ub" 0 (some 1) []) (fun _ _ => q095) (fun _ _ => 0)
      q085 q075 (by decide) (by decide)

end NeuralExpress
